import Mathlib

/-!
Verification of the slot-availability and booking-validity engine of
`src/pick-reservation.jsx`.

Modelling conventions (shallow embedding):

* Times of day are modelled as minute-of-day counts (`Nat`).  In the source,
  slot instants travel as `"HH:MM"` labels produced by `fmtTime` and are read
  back with `timeToMinutes`; since `timeToMinutes (fmtTime h m) = h * 60 + m`
  for all naturals (zero-padding does not change the parsed value), the label
  representation is isomorphic to the minute count and we use the latter
  directly.  A reservation's `startTime` / `endTime` fields are likewise
  minute counts.
* Dates, identifiers and statuses stay strings, exactly as in the source
  (`status` is the string `"confirmed"` or `"cancelled"`).
* The source's `while` loop in `generateTimeSlots` and `for` loop in
  `canBook` are modelled with an explicit fuel parameter; `none` means the
  fuel bound was reached with the loop still running.  For positive
  `slotIntervalMin` a fuel of one more than the remaining minutes provably
  suffices, so the top-level wrappers pass that.
* JavaScript number division in `getDateAvailability` is modelled in `ℚ`.
-/

/-- A catalog product: `requiredSlots` capacity units for `durationMin`
minutes (source `PRODUCTS` entries). -/
structure Product where
  id : String
  name : String
  requiredSlots : Nat
  durationMin : Nat
deriving DecidableEq

/-- Operator settings (source `DEFAULT_SETTINGS` shape). -/
structure Settings where
  maxCapacity : Nat
  openHour : Nat
  openMin : Nat
  closeHour : Nat
  closeMin : Nat
  slotIntervalMin : Nat
  calendarMonths : Nat
  holidays : List String
deriving DecidableEq

/-- A reservation record, all fields of the object built in `handleConfirm`.
`startTime` and `endTime` are minute-of-day counts (see the header). -/
structure Reservation where
  id : String
  date : String
  startTime : Nat
  endTime : Nat
  productId : String
  productName : String
  requiredSlots : Nat
  name : String
  phone : String
  note : String
  status : String
  createdAt : String
deriving DecidableEq

/-- The source's product catalog `PRODUCTS`. -/
def PRODUCTS : List Product :=
  [⟨"quarter", "クォーター", 1, 60⟩,
   ⟨"half", "ハーフ", 3, 120⟩,
   ⟨"full", "フル", 2, 180⟩,
   ⟨"pick-guide-half", "ピック指導（ハーフ）", 3, 180⟩,
   ⟨"pick-guide-full", "ピック指導（フル）", 2, 240⟩]

/-- The source's `DEFAULT_SETTINGS`. -/
def DEFAULT_SETTINGS : Settings :=
  { maxCapacity := 6, openHour := 9, openMin := 0, closeHour := 19,
    closeMin := 0, slotIntervalMin := 30, calendarMonths := 3, holidays := [] }

/-- Opening time in minutes of day (`settings.openHour * 60 + settings.openMin`,
as computed where the source starts its slot walk). -/
def openTotal (s : Settings) : Nat := s.openHour * 60 + s.openMin

/-- Closing time in minutes of day (`settings.closeHour * 60 + settings.closeMin`,
the `endTotal` / `closeMin` expression of the source). -/
def closeTotal (s : Settings) : Nat := s.closeHour * 60 + s.closeMin

/-- A slot produced by `generateTimeSlots`: the `{hour, min}` pair (the
source also carries `label = fmtTime hour min`, which is determined by the
pair). -/
structure TimeSlot where
  hour : Nat
  min : Nat
deriving DecidableEq

/-- Minute-of-day offset of a slot, i.e. `timeToMinutes slot.label`. -/
def TimeSlot.offset (t : TimeSlot) : Nat := t.hour * 60 + t.min

/-- The `while (h * 60 + m < endTotal)` loop of `generateTimeSlots`, with
explicit fuel.  One iteration pushes `{hour := h, min := m}`, then performs
`m += interval; if (m >= 60) { h += ⌊m / 60⌋; m = m % 60 }`.  `none` means
the fuel ran out with the loop condition still true. -/
def genSlotsAux (interval endTotal : Nat) : Nat → Nat → Nat → Option (List TimeSlot)
  | 0, h, m => if h * 60 + m < endTotal then none else some []
  | fuel + 1, h, m =>
    if h * 60 + m < endTotal then
      let m2 := m + interval
      let h2 := if 60 ≤ m2 then h + m2 / 60 else h
      let m3 := if 60 ≤ m2 then m2 % 60 else m2
      (genSlotsAux interval endTotal fuel h2 m3).map (fun l => ⟨h, m⟩ :: l)
    else some []

/-- Source `generateTimeSlots`: walk from `(openHour, openMin)` while below
`endTotal`.  Fuel `closeTotal s` suffices whenever `slotIntervalMin ≥ 1`. -/
def generateTimeSlots (s : Settings) : Option (List TimeSlot) :=
  genSlotsAux s.slotIntervalMin (closeTotal s) (closeTotal s) s.openHour s.openMin

/-- Source `getSlotOccupancy date slotLabel reservations`: filter to the
date's confirmed reservations, then add `requiredSlots` of each one whose
`[startTime, endTime)` interval contains the queried instant.  `slotMin` is
`timeToMinutes slotLabel`. -/
def getSlotOccupancy (date : String) (slotMin : Nat) (reservations : List Reservation) : Nat :=
  (reservations.filter (fun r => r.date == date && r.status == "confirmed")).foldl
    (fun sum r =>
      if r.startTime ≤ slotMin ∧ slotMin < r.endTime then sum + r.requiredSlots else sum)
    0

/-- The `for (let m = startMin; m < endMin; m += interval)` loop of
`canBook`, with explicit fuel: at each grid instant `m < endMin`, reject when
`occupancy + requiredSlots > maxCapacity`, else step by `interval`. -/
def canBookAux (date : String) (interval maxCap req endMin : Nat)
    (reservations : List Reservation) : Nat → Nat → Option Bool
  | 0, m => if m < endMin then none else some true
  | fuel + 1, m =>
    if m < endMin then
      if getSlotOccupancy date m reservations + req > maxCap then some false
      else canBookAux date interval maxCap req endMin reservations fuel (m + interval)
    else some true

/-- Source `canBook`: reject outright when the booking would end after
closing time, otherwise run the per-instant capacity loop.  Fuel
`durationMin + 1` suffices whenever `slotIntervalMin ≥ 1`. -/
def canBook (date : String) (startMin : Nat) (product : Product)
    (reservations : List Reservation) (s : Settings) : Option Bool :=
  let endMin := startMin + product.durationMin
  if endMin > closeTotal s then some false
  else
    canBookAux date s.slotIntervalMin s.maxCapacity product.requiredSlots endMin
      reservations (product.durationMin + 1) startMin

/-- Source `getDateAvailability`: over the generated slots, accumulate
`max(0, maxCapacity - occupancy)` and divide by `slots.length * maxCapacity`
(JS number division, modelled in `ℚ`). -/
def getDateAvailability (dateStr : String) (reservations : List Reservation)
    (s : Settings) : Option ℚ :=
  (generateTimeSlots s).map (fun slots =>
    let totalAvail : Int :=
      slots.foldl
        (fun acc slot =>
          acc + max 0 ((s.maxCapacity : Int) - (getSlotOccupancy dateStr slot.offset reservations : Int)))
        0
    let maxPossible : Int := (slots.length : Int) * (s.maxCapacity : Int)
    ((totalAvail : ℚ) / (maxPossible : ℚ)))

/-- Source `handleCancel`: map over the reservation list, setting
`status := "cancelled"` on the record whose `id` matches. -/
def handleCancel (id : String) (reservations : List Reservation) : List Reservation :=
  reservations.map (fun r => if r.id == id then { r with status := "cancelled" } else r)

/-- In the source `App` component the admin panel's delete action is wired to
the cancellation handler: `onDeleteReservation={handleCancel}`. -/
def deleteReservation (id : String) (reservations : List Reservation) : List Reservation :=
  handleCancel id reservations

/-- The `Calendar` component's per-day guard: `disabled = past || holiday`
where `holiday = settings.holidays.includes(dateStr)`; a disabled day's
button never calls `onSelect`, so no booking can start on it.  The past-ness
of the date depends on the wall clock and is passed in as a boolean. -/
def isDateDisabled (dateStr : String) (past : Bool) (s : Settings) : Bool :=
  past || s.holidays.contains dateStr

/-- Per-reservation contribution to the occupancy of instant `slotMin` on
`date`: the combined filter/interval condition of `getSlotOccupancy`. -/
def occContrib (date : String) (slotMin : Nat) (r : Reservation) : Nat :=
  if r.date = date ∧ r.status = "confirmed" ∧ r.startTime ≤ slotMin ∧ slotMin < r.endTime
  then r.requiredSlots else 0

lemma foldl_occ_shift (cond : Reservation → Prop) [DecidablePred cond]
    (l : List Reservation) :
    ∀ a : Nat, l.foldl (fun sum r => if cond r then sum + r.requiredSlots else sum) a
      = a + l.foldl (fun sum r => if cond r then sum + r.requiredSlots else sum) 0 := by
  induction l with
  | nil => intro a; simp
  | cons r l ih =>
    intro a
    simp only [List.foldl_cons]
    by_cases h : cond r
    · rw [if_pos h, if_pos h, ih (a + r.requiredSlots), ih (0 + r.requiredSlots)]
      omega
    · rw [if_neg h, if_neg h, ih a]

/-- `getSlotOccupancy` is the sum of the per-reservation contributions. -/
lemma getSlotOccupancy_eq_sum (date : String) (slotMin : Nat)
    (reservations : List Reservation) :
    getSlotOccupancy date slotMin reservations
      = (reservations.map (occContrib date slotMin)).sum := by
  induction reservations with
  | nil => rfl
  | cons r l ih =>
    simp only [getSlotOccupancy, List.filter_cons] at *
    by_cases hf : (r.date == date && r.status == "confirmed") = true
    · rw [if_pos hf]
      simp only [List.foldl_cons]
      rw [foldl_occ_shift]
      rw [ih]
      simp only [List.map_cons, List.sum_cons]
      have hd : r.date = date := by
        have := hf
        simp only [Bool.and_eq_true, beq_iff_eq] at this
        exact this.1
      have hs : r.status = "confirmed" := by
        have := hf
        simp only [Bool.and_eq_true, beq_iff_eq] at this
        exact this.2
      by_cases hiv : r.startTime ≤ slotMin ∧ slotMin < r.endTime
      · rw [if_pos hiv]
        have : occContrib date slotMin r = r.requiredSlots := by
          unfold occContrib
          rw [if_pos ⟨hd, hs, hiv.1, hiv.2⟩]
        omega
      · rw [if_neg hiv]
        have : occContrib date slotMin r = 0 := by
          unfold occContrib
          rw [if_neg (by tauto)]
        omega
    · rw [if_neg hf]
      rw [ih]
      simp only [List.map_cons, List.sum_cons]
      have : occContrib date slotMin r = 0 := by
        unfold occContrib
        simp only [Bool.and_eq_true, beq_iff_eq] at hf
        rw [if_neg (by tauto)]
      omega

/-- Characterization of the capacity-walk loop: with positive interval and
enough fuel, the loop completes, and it answers `true` exactly when every
stepped instant `m + k * interval` strictly below `endMin` fits within
capacity. -/
lemma canBookAux_char (date : String) (I maxCap req endMin : Nat)
    (res : List Reservation) (hI : 1 ≤ I) :
    ∀ fuel m, endMin ≤ m + fuel →
      canBookAux date I maxCap req endMin res fuel m ≠ none ∧
      (canBookAux date I maxCap req endMin res fuel m = some true ↔
        ∀ k, m + k * I < endMin →
          getSlotOccupancy date (m + k * I) res + req ≤ maxCap) := by
  intro fuel
  induction fuel with
  | zero =>
    intro m hm
    simp only [canBookAux]
    rw [if_neg (by omega)]
    refine ⟨by simp, ?_⟩
    simp only [true_iff]
    intro k hk
    have : m ≤ m + k * I := Nat.le_add_right _ _
    omega
  | succ fuel ih =>
    intro m hm
    simp only [canBookAux]
    by_cases hlt : m < endMin
    · rw [if_pos hlt]
      by_cases hocc : getSlotOccupancy date m res + req > maxCap
      · rw [if_pos hocc]
        refine ⟨by simp, ?_⟩
        constructor
        · intro h; exact absurd h (by simp)
        · intro hall
          have h0 := hall 0 (by simpa using hlt)
          simp only [Nat.zero_mul, Nat.add_zero] at h0
          omega
      · rw [if_neg hocc]
        have step := ih (m + I) (by omega)
        refine ⟨step.1, ?_⟩
        rw [step.2]
        constructor
        · intro hall k hk
          cases k with
          | zero =>
            simp only [Nat.zero_mul, Nat.add_zero]
            omega
          | succ k =>
            have e : m + (k + 1) * I = m + I + k * I := by ring
            rw [e]
            exact hall k (by rw [e] at hk; exact hk)
        · intro hall k hk
          have e : m + I + k * I = m + (k + 1) * I := by ring
          rw [e]
          exact hall (k + 1) (by rw [← e]; exact hk)
    · rw [if_neg hlt]
      refine ⟨by simp, ?_⟩
      simp only [true_iff]
      intro k hk
      have : m ≤ m + k * I := Nat.le_add_right _ _
      omega

/-- One step of the slot walk advances the minute-of-day total by exactly
the interval: the carry normalization preserves `h * 60 + m`. -/
lemma genSlots_step_total (h m interval : Nat) :
    (if 60 ≤ m + interval then h + (m + interval) / 60 else h) * 60 +
      (if 60 ≤ m + interval then (m + interval) % 60 else m + interval)
      = h * 60 + m + interval := by
  by_cases hc : 60 ≤ m + interval
  · rw [if_pos hc, if_pos hc]
    have := Nat.div_add_mod (m + interval) 60
    omega
  · rw [if_neg hc, if_neg hc]
    omega

/-- Characterization of the slot walk: with positive interval and enough
fuel, it completes, the emitted offsets are exactly the arithmetic
progression `h * 60 + m + k * interval` for `k < length`, and the emitted
slots are exactly those progression points below `endTotal`. -/
lemma genSlotsAux_char (interval endTotal : Nat) (hI : 1 ≤ interval) :
    ∀ fuel h m, endTotal ≤ h * 60 + m + fuel →
      ∃ l, genSlotsAux interval endTotal fuel h m = some l ∧
        l.map TimeSlot.offset
          = (List.range l.length).map (fun k => h * 60 + m + k * interval) ∧
        (∀ k, k < l.length → h * 60 + m + k * interval < endTotal) ∧
        (∀ k, h * 60 + m + k * interval < endTotal → k < l.length) := by
  intro fuel
  induction fuel with
  | zero =>
    intro h m hm
    refine ⟨[], ?_, by simp, by simp, ?_⟩
    · simp only [genSlotsAux]
      rw [if_neg (by omega)]
    · intro k hk
      have : h * 60 + m ≤ h * 60 + m + k * interval := Nat.le_add_right _ _
      omega
  | succ fuel ih =>
    intro h m hm
    by_cases hlt : h * 60 + m < endTotal
    · have htot := genSlots_step_total h m interval
      set h2 := if 60 ≤ m + interval then h + (m + interval) / 60 else h with hh2
      set m3 := if 60 ≤ m + interval then (m + interval) % 60 else m + interval with hm3
      obtain ⟨l, hl, hmap, hlt2, hcomp⟩ := ih h2 m3 (by omega)
      refine ⟨⟨h, m⟩ :: l, ?_, ?_, ?_, ?_⟩
      · simp only [genSlotsAux]
        rw [if_pos hlt]
        simp only [← hh2, ← hm3, hl]
        rfl
      · rw [htot] at hmap
        simp only [List.map_cons, List.length_cons, List.range_succ_eq_map,
          List.map_map, hmap]
        refine congrArg₂ List.cons ?_ ?_
        · simp [TimeSlot.offset]
        · refine List.map_congr_left ?_
          intro k _
          simp only [Function.comp_apply, Nat.succ_eq_add_one]
          ring
      · intro k hk
        cases k with
        | zero => simpa using hlt
        | succ k =>
          have e : h * 60 + m + (k + 1) * interval
              = h2 * 60 + m3 + k * interval := by rw [htot]; ring
          rw [e]
          exact hlt2 k (by simpa using hk)
      · intro k hk
        cases k with
        | zero => simp
        | succ k =>
          have e : h * 60 + m + (k + 1) * interval
              = h2 * 60 + m3 + k * interval := by rw [htot]; ring
          rw [e] at hk
          have := hcomp k hk
          simpa using Nat.succ_lt_succ this
    · refine ⟨[], ?_, by simp, by simp, ?_⟩
      · simp only [genSlotsAux]
        rw [if_neg hlt]
      · intro k hk
        have : h * 60 + m ≤ h * 60 + m + k * interval := Nat.le_add_right _ _
        omega

lemma sum_map_ite_eq_filter (p : Reservation → Prop) [DecidablePred p]
    (l : List Reservation) :
    (l.map (fun r => if p r then r.requiredSlots else 0)).sum
      = ((l.filter (fun r => decide (p r))).map Reservation.requiredSlots).sum := by
  induction l with
  | nil => rfl
  | cons r l ih =>
    simp only [List.map_cons, List.sum_cons, List.filter_cons]
    by_cases h : p r
    · rw [if_pos h, if_pos (by simpa using h)]
      simp only [List.map_cons, List.sum_cons, ih]
    · rw [if_neg h, if_neg (by simpa using h)]
      simpa using ih

/-- Reordering the conjuncts of the occupancy condition. -/
lemma occContrib_reorder (date : String) (t : Nat) (r : Reservation) :
    occContrib date t r
      = if r.status = "confirmed" ∧ r.date = date ∧ r.startTime ≤ t ∧ t < r.endTime
        then r.requiredSlots else 0 := by
  unfold occContrib
  by_cases h : r.date = date ∧ r.status = "confirmed" ∧ r.startTime ≤ t ∧ t < r.endTime
  · rw [if_pos h, if_pos (by tauto)]
  · rw [if_neg h, if_neg (by tauto)]

/-- C2: `getSlotOccupancy` sums `requiredSlots` over exactly the confirmed,
date-matching reservations whose half-open interval `[startTime, endTime)`
contains the instant; as the interval is half-open, a reservation whose
`endTime` is at (or before) the queried instant contributes nothing, so a
booking ending at 12:00 never conflicts with one starting at 12:00. -/
theorem getSlotOccupancy_halfOpen_sum (date : String) (t : Nat)
    (res : List Reservation) :
    (getSlotOccupancy date t res
      = ((res.filter (fun r =>
            decide (r.status = "confirmed" ∧ r.date = date ∧
              r.startTime ≤ t ∧ t < r.endTime))).map Reservation.requiredSlots).sum) ∧
    ∀ r : Reservation, r.endTime ≤ t →
      getSlotOccupancy date t (res ++ [r]) = getSlotOccupancy date t res := by
  constructor
  · rw [getSlotOccupancy_eq_sum]
    have hpt : res.map (occContrib date t)
        = res.map (fun r =>
            if r.status = "confirmed" ∧ r.date = date ∧ r.startTime ≤ t ∧ t < r.endTime
            then r.requiredSlots else 0) :=
      List.map_congr_left (fun r _ => occContrib_reorder date t r)
    rw [hpt, sum_map_ite_eq_filter]
  · intro r hr
    rw [getSlotOccupancy_eq_sum, getSlotOccupancy_eq_sum, List.map_append,
      List.sum_append]
    have : occContrib date t r = 0 := by
      unfold occContrib
      rw [if_neg (by omega)]
    simp [this]

/-- A reservation ending exactly at noon (12:00 = minute 720). -/
def resEndNoon : Reservation :=
  ⟨"r1", "2026-03-01", 600, 720, "half", "ハーフ", 3, "客A", "090-0000-0001", "",
    "confirmed", "2026-02-01T00:00:00"⟩

/-- A reservation starting exactly at noon. -/
def resStartNoon : Reservation :=
  ⟨"r2", "2026-03-01", 720, 840, "half", "ハーフ", 3, "客B", "090-0000-0002", "",
    "confirmed", "2026-02-02T00:00:00"⟩

theorem getSlotOccupancy_halfOpen_sum_w :
    resEndNoon.endTime ≤ 720 ∧
    getSlotOccupancy "2026-03-01" 720 ([resStartNoon] ++ [resEndNoon])
      = getSlotOccupancy "2026-03-01" 720 [resStartNoon] :=
  ⟨by decide,
    (getSlotOccupancy_halfOpen_sum "2026-03-01" 720 [resStartNoon]).2 resEndNoon
      (by decide)⟩

/-- C1: with the booking inside business hours on a non-holiday, a
grid-aligned start and a positive interval, `canBook` completes and returns
`false` exactly when some stepped instant `start + k * interval` strictly
before `start + duration` overflows capacity, and `true` exactly when all
such instants (including the last one below the end, even when the duration
is not a multiple of the interval) fit within capacity. -/
theorem canBook_capacity_char (date : String) (startMin : Nat) (p : Product)
    (res : List Reservation) (s : Settings)
    (hI : 0 < s.slotIntervalMin)
    (hin : startMin + p.durationMin ≤ closeTotal s)
    (hgrid : ∃ j, startMin = openTotal s + j * s.slotIntervalMin)
    (hhol : date ∉ s.holidays) :
    (canBook date startMin p res s = some false ↔
      ∃ k, startMin + k * s.slotIntervalMin < startMin + p.durationMin ∧
        s.maxCapacity <
          getSlotOccupancy date (startMin + k * s.slotIntervalMin) res
            + p.requiredSlots) ∧
    (canBook date startMin p res s = some true ↔
      ∀ k, startMin + k * s.slotIntervalMin < startMin + p.durationMin →
        getSlotOccupancy date (startMin + k * s.slotIntervalMin) res
            + p.requiredSlots ≤ s.maxCapacity) := by
  have H := canBookAux_char date s.slotIntervalMin s.maxCapacity p.requiredSlots
    (startMin + p.durationMin) res hI (p.durationMin + 1) startMin (by omega)
  have hcb : canBook date startMin p res s
      = canBookAux date s.slotIntervalMin s.maxCapacity p.requiredSlots
          (startMin + p.durationMin) res (p.durationMin + 1) startMin := by
    unfold canBook
    rw [if_neg (by omega)]
  rw [hcb]
  refine ⟨?_, H.2⟩
  have hsplit : canBookAux date s.slotIntervalMin s.maxCapacity p.requiredSlots
      (startMin + p.durationMin) res (p.durationMin + 1) startMin = some false
      ↔ ¬ (canBookAux date s.slotIntervalMin s.maxCapacity p.requiredSlots
            (startMin + p.durationMin) res (p.durationMin + 1) startMin = some true) := by
    cases hA : canBookAux date s.slotIntervalMin s.maxCapacity p.requiredSlots
        (startMin + p.durationMin) res (p.durationMin + 1) startMin with
    | none => exact absurd hA H.1
    | some b => cases b <;> simp
  rw [hsplit, H.2]
  push_neg
  rfl

/-- The source catalog's quarter product (1 unit, 60 minutes). -/
def prodQuarter : Product := ⟨"quarter", "クォーター", 1, 60⟩

/-- The source catalog's longest product (2 units, 240 minutes). -/
def prodGuideFull : Product := ⟨"pick-guide-full", "ピック指導（フル）", 2, 240⟩

theorem canBook_capacity_char_w :
    0 < DEFAULT_SETTINGS.slotIntervalMin ∧
    600 + prodQuarter.durationMin ≤ closeTotal DEFAULT_SETTINGS ∧
    (∃ j, 600 = openTotal DEFAULT_SETTINGS + j * DEFAULT_SETTINGS.slotIntervalMin) ∧
    "2026-03-02" ∉ DEFAULT_SETTINGS.holidays ∧
    (canBook "2026-03-02" 600 prodQuarter [] DEFAULT_SETTINGS = some true ↔
      ∀ k, 600 + k * DEFAULT_SETTINGS.slotIntervalMin < 600 + prodQuarter.durationMin →
        getSlotOccupancy "2026-03-02" (600 + k * DEFAULT_SETTINGS.slotIntervalMin) []
            + prodQuarter.requiredSlots ≤ DEFAULT_SETTINGS.maxCapacity) :=
  ⟨by decide, by decide, ⟨2, by decide⟩, by decide,
    (canBook_capacity_char "2026-03-02" 600 prodQuarter [] DEFAULT_SETTINGS
      (by decide) (by decide) ⟨2, by decide⟩ (by decide)).2⟩

/-- C4: a booking whose end `start + durationMin` lies past closing time is
rejected by `canBook` outright, whatever the reservations and capacity. -/
theorem canBook_after_hours_reject (date : String) (startMin : Nat) (p : Product)
    (res : List Reservation) (s : Settings)
    (h : closeTotal s < startMin + p.durationMin) :
    canBook date startMin p res s = some false := by
  unfold canBook
  rw [if_pos (by omega)]

theorem canBook_after_hours_reject_w :
    closeTotal DEFAULT_SETTINGS < 1080 + prodGuideFull.durationMin ∧
    canBook "2026-03-02" 1080 prodGuideFull [] DEFAULT_SETTINGS = some false :=
  ⟨by decide,
    canBook_after_hours_reject "2026-03-02" 1080 prodGuideFull [] DEFAULT_SETTINGS
      (by decide)⟩

/-- C3: with open before close and a positive interval, the slot walk
completes and its offsets are the strictly increasing arithmetic progression
starting at `openTotal` stepped by `slotIntervalMin`, every one of them in
`[openTotal, closeTotal)`. -/
theorem generateTimeSlots_grid (s : Settings)
    (h1 : openTotal s < closeTotal s) (h2 : 0 < s.slotIntervalMin) :
    ∃ l, generateTimeSlots s = some l ∧
      (∀ t ∈ l, openTotal s ≤ t.offset ∧ t.offset < closeTotal s) ∧
      l.map TimeSlot.offset
        = (List.range l.length).map
            (fun k => openTotal s + k * s.slotIntervalMin) := by
  have hopen : openTotal s = s.openHour * 60 + s.openMin := rfl
  obtain ⟨l, hl, hmap, hbound, hcomp⟩ :=
    genSlotsAux_char s.slotIntervalMin (closeTotal s) h2 (closeTotal s)
      s.openHour s.openMin (by omega)
  rw [← hopen] at hmap hbound
  refine ⟨l, hl, ?_, hmap⟩
  intro t ht
  have hmem : t.offset ∈ l.map TimeSlot.offset := List.mem_map_of_mem _ ht
  rw [hmap] at hmem
  obtain ⟨k, hk, he⟩ := List.mem_map.mp hmem
  rw [← he]
  exact ⟨Nat.le_add_right _ _, hbound k (List.mem_range.mp hk)⟩

theorem generateTimeSlots_grid_w :
    openTotal DEFAULT_SETTINGS < closeTotal DEFAULT_SETTINGS ∧
    0 < DEFAULT_SETTINGS.slotIntervalMin ∧
    ∃ l, generateTimeSlots DEFAULT_SETTINGS = some l ∧
      (∀ t ∈ l, openTotal DEFAULT_SETTINGS ≤ t.offset ∧
        t.offset < closeTotal DEFAULT_SETTINGS) ∧
      l.map TimeSlot.offset
        = (List.range l.length).map
            (fun k => openTotal DEFAULT_SETTINGS + k * DEFAULT_SETTINGS.slotIntervalMin) :=
  ⟨by decide, by decide, generateTimeSlots_grid DEFAULT_SETTINGS (by decide) (by decide)⟩

/-- Settings whose slot interval is zero: the degenerate configuration named
by the claim.  Nothing in the source rejects it. -/
def zeroIntervalSettings : Settings :=
  { maxCapacity := 6, openHour := 9, openMin := 0, closeHour := 19,
    closeMin := 0, slotIntervalMin := 0, calendarMonths := 3, holidays := [] }

/-- C6: with `slotIntervalMin = 0` and open before close, the
`generateTimeSlots` while-loop never terminates: however much fuel the loop
is given it is still running (first conjunct), so the engine neither returns
an empty sequence nor rejects the configuration. -/
theorem generateTimeSlots_zero_interval_diverges :
    (∀ fuel, genSlotsAux zeroIntervalSettings.slotIntervalMin
        (closeTotal zeroIntervalSettings) fuel zeroIntervalSettings.openHour
        zeroIntervalSettings.openMin = none) ∧
    generateTimeSlots zeroIntervalSettings = none := by
  have key : ∀ fuel, genSlotsAux 0 1140 fuel 9 0 = none := by
    intro fuel
    induction fuel with
    | zero => decide
    | succ fuel ih =>
      show (if 9 * 60 + 0 < 1140 then
          (genSlotsAux 0 1140 fuel (if 60 ≤ 0 + 0 then 9 + (0 + 0) / 60 else 9)
            (if 60 ≤ 0 + 0 then (0 + 0) % 60 else 0 + 0)).map
            (fun l => ⟨9, 0⟩ :: l)
        else some []) = none
      rw [if_pos (by norm_num), if_neg (by norm_num), if_neg (by norm_num)]
      rw [show (0 + 0 : Nat) = 0 from rfl, ih]
      rfl
  exact ⟨fun fuel => key fuel, key 1140⟩

/-- C5: a date listed in `holidayDates` is rejected by the booking path's
caller: the calendar marks it disabled (whatever the wall clock says and
whatever reservations exist), so its select handler never fires; the
validator itself ignores holidays entirely, as `canBook` does not depend on
the `holidays` field. -/
theorem holiday_date_rejected_by_calendar (date : String) (past : Bool)
    (s : Settings) (h : date ∈ s.holidays) :
    isDateDisabled date past s = true ∧
    ∀ d t p res, canBook d t p res s
      = canBook d t p res
          { maxCapacity := s.maxCapacity, openHour := s.openHour,
            openMin := s.openMin, closeHour := s.closeHour,
            closeMin := s.closeMin, slotIntervalMin := s.slotIntervalMin,
            calendarMonths := s.calendarMonths, holidays := [] } := by
  constructor
  · unfold isDateDisabled
    have hc : s.holidays.contains date = true := by
      simpa using List.elem_iff.mpr h
    rw [hc, Bool.or_true]
  · intro d t p res
    rfl

theorem holiday_date_rejected_by_calendar_w :
    "2026-05-05" ∈
      ({ maxCapacity := 6, openHour := 9, openMin := 0, closeHour := 19,
         closeMin := 0, slotIntervalMin := 30, calendarMonths := 3,
         holidays := ["2026-05-05"] } : Settings).holidays ∧
    isDateDisabled "2026-05-05" false
      { maxCapacity := 6, openHour := 9, openMin := 0, closeHour := 19,
        closeMin := 0, slotIntervalMin := 30, calendarMonths := 3,
        holidays := ["2026-05-05"] } = true :=
  ⟨by decide,
    (holiday_date_rejected_by_calendar "2026-05-05" false
      { maxCapacity := 6, openHour := 9, openMin := 0, closeHour := 19,
        closeMin := 0, slotIntervalMin := 30, calendarMonths := 3,
        holidays := ["2026-05-05"] } (by decide)).1⟩

/-- A cancelled reservation overlapping noon, used as a witness input. -/
def resCancelledNoon : Reservation :=
  ⟨"r3", "2026-03-01", 600, 720, "half", "ハーフ", 3, "客C", "090-0000-0003", "",
    "cancelled", "2026-02-03T00:00:00"⟩

/-- C7: occupancy at an instant grows by exactly `requiredSlots` when a
confirmed reservation covering it is appended; inserting or removing a
cancelled reservation anywhere leaves it unchanged; and the cancellation
operation (`handleCancel`) never increases occupancy at any instant. -/
theorem occupancy_monotone (date : String) (t : Nat) (id : String)
    (res res1 res2 : List Reservation) (r rc : Reservation)
    (hs : r.status = "confirmed") (hd : r.date = date)
    (h1 : r.startTime ≤ t) (h2 : t < r.endTime)
    (hc : rc.status = "cancelled") :
    getSlotOccupancy date t (res ++ [r])
        = getSlotOccupancy date t res + r.requiredSlots ∧
    getSlotOccupancy date t (res1 ++ rc :: res2)
        = getSlotOccupancy date t (res1 ++ res2) ∧
    getSlotOccupancy date t (handleCancel id res) ≤ getSlotOccupancy date t res := by
  refine ⟨?_, ?_, ?_⟩
  · rw [getSlotOccupancy_eq_sum, getSlotOccupancy_eq_sum, List.map_append,
      List.sum_append]
    have hr : occContrib date t r = r.requiredSlots := by
      unfold occContrib
      rw [if_pos ⟨hd, hs, h1, h2⟩]
    simp [hr]
  · rw [getSlotOccupancy_eq_sum, getSlotOccupancy_eq_sum]
    simp only [List.map_append, List.sum_append, List.map_cons, List.sum_cons]
    have hrc : occContrib date t rc = 0 := by
      unfold occContrib
      have hno : ¬ (rc.date = date ∧ rc.status = "confirmed" ∧
          rc.startTime ≤ t ∧ t < rc.endTime) := by
        rintro ⟨-, hst, -⟩
        rw [hc] at hst
        exact absurd hst (by decide)
      rw [if_neg hno]
    omega
  · rw [getSlotOccupancy_eq_sum, getSlotOccupancy_eq_sum]
    unfold handleCancel
    rw [List.map_map]
    refine List.sum_le_sum ?_
    intro r0 _
    simp only [Function.comp_apply]
    by_cases hid : r0.id == id
    · rw [if_pos hid]
      have hz : occContrib date t { r0 with status := "cancelled" } = 0 := by
        unfold occContrib
        have hno : ¬ (({ r0 with status := "cancelled" } : Reservation).date = date ∧
            ({ r0 with status := "cancelled" } : Reservation).status = "confirmed" ∧
            ({ r0 with status := "cancelled" } : Reservation).startTime ≤ t ∧
            t < ({ r0 with status := "cancelled" } : Reservation).endTime) := by
          rintro ⟨-, hst, -⟩
          have he : ({ r0 with status := "cancelled" } : Reservation).status
              = "cancelled" := rfl
          rw [he] at hst
          exact absurd hst (by decide)
        rw [if_neg hno]
      rw [hz]
      exact Nat.zero_le _
    · rw [if_neg hid]

theorem occupancy_monotone_w :
    (resEndNoon.status = "confirmed" ∧ resEndNoon.date = "2026-03-01" ∧
      resEndNoon.startTime ≤ 660 ∧ 660 < resEndNoon.endTime ∧
      resCancelledNoon.status = "cancelled") ∧
    getSlotOccupancy "2026-03-01" 660 ([resStartNoon] ++ [resEndNoon])
        = getSlotOccupancy "2026-03-01" 660 [resStartNoon] + resEndNoon.requiredSlots ∧
    getSlotOccupancy "2026-03-01" 660 ([resStartNoon] ++ resCancelledNoon :: [])
        = getSlotOccupancy "2026-03-01" 660 ([resStartNoon] ++ []) ∧
    getSlotOccupancy "2026-03-01" 660 (handleCancel "r2" [resStartNoon])
        ≤ getSlotOccupancy "2026-03-01" 660 [resStartNoon] :=
  ⟨⟨by decide, by decide, by decide, by decide, by decide⟩,
    occupancy_monotone "2026-03-01" 660 "r2" [resStartNoon] [resStartNoon] []
      resEndNoon resCancelledNoon (by decide) (by decide) (by decide) (by decide)
      (by decide)⟩

/-- C8 counterexample: the admin delete action applied to a set holding one
confirmed reservation with the targeted id yields a set that still contains
a record with that id — the record is not removed. -/
theorem deleteReservation_keeps_record :
    resEndNoon.status = "confirmed" ∧
    ∃ r ∈ deleteReservation "r1" [resEndNoon], r.id = "r1" := by
  decide

/-- C8 (amended): the source has no hard-delete distinct from cancellation:
the admin panel's delete action is the very cancellation handler, so it
preserves the id sequence of the set (removing nothing) and merely sets the
matching record's status to `"cancelled"`. -/
theorem deleteReservation_is_cancellation (id : String) (res : List Reservation) :
    deleteReservation id res = handleCancel id res ∧
    (deleteReservation id res).map Reservation.id = res.map Reservation.id ∧
    (deleteReservation id res).map Reservation.status
      = res.map (fun r => if r.id == id then "cancelled" else r.status) := by
  refine ⟨rfl, ?_, ?_⟩
  · unfold deleteReservation handleCancel
    rw [List.map_map]
    refine List.map_congr_left ?_
    intro r _
    simp only [Function.comp_apply]
    by_cases h : r.id == id
    · rw [if_pos h]
    · rw [if_neg h]
  · unfold deleteReservation handleCancel
    rw [List.map_map]
    refine List.map_congr_left ?_
    intro r _
    simp only [Function.comp_apply]
    by_cases h : r.id == id
    · rw [if_pos h, if_pos h]
    · rw [if_neg h, if_neg h]

/-- C10: cancellation is a pure per-record status update: the list keeps its
length and order, and each record keeps every field unchanged except that
the record whose id matches gets status `"cancelled"`. -/
theorem handleCancel_frame (id : String) (res : List Reservation) :
    (handleCancel id res).length = res.length ∧
    ∀ i : Nat, (handleCancel id res)[i]?
      = (res[i]?).map (fun r =>
          Reservation.mk r.id r.date r.startTime r.endTime r.productId
            r.productName r.requiredSlots r.name r.phone r.note
            (if r.id == id then "cancelled" else r.status) r.createdAt) := by
  constructor
  · exact List.length_map _ _
  · intro i
    unfold handleCancel
    rw [List.getElem?_map]
    cases hr : res[i]? with
    | none => rfl
    | some r =>
      show some (if r.id == id then { r with status := "cancelled" } else r)
        = some (Reservation.mk r.id r.date r.startTime r.endTime r.productId
            r.productName r.requiredSlots r.name r.phone r.note
            (if r.id == id then "cancelled" else r.status) r.createdAt)
      congr 1
      by_cases h : r.id == id
      · rw [if_pos h, if_pos h]
      · rw [if_neg h, if_neg h]

lemma foldl_add_map_int (f : TimeSlot → Int) (l : List TimeSlot) :
    ∀ a : Int, l.foldl (fun acc x => acc + f x) a = a + (l.map f).sum := by
  induction l with
  | nil => intro a; simp
  | cons x l ih =>
    intro a
    simp only [List.foldl_cons, List.map_cons, List.sum_cons]
    rw [ih]
    ring

lemma sum_map_nonneg_int (f : TimeSlot → Int) (l : List TimeSlot)
    (h : ∀ x ∈ l, 0 ≤ f x) : 0 ≤ (l.map f).sum := by
  induction l with
  | nil => simp
  | cons x l ih =>
    simp only [List.map_cons, List.sum_cons]
    have hx := h x (by simp)
    have ihh := ih (fun y hy => h y (by simp [hy]))
    omega

lemma sum_map_le_int (f : TimeSlot → Int) (B : Int) (l : List TimeSlot)
    (h : ∀ x ∈ l, f x ≤ B) : (l.map f).sum ≤ (l.length : Int) * B := by
  induction l with
  | nil => simp
  | cons x l ih =>
    simp only [List.map_cons, List.sum_cons, List.length_cons]
    have hx := h x (by simp)
    have ihh := ih (fun y hy => h y (by simp [hy]))
    push_cast
    nlinarith [hx, ihh]

/-- C9: with open before close, a positive interval and positive capacity,
`getDateAvailability` yields exactly
(sum over grid slots of `max 0 (maxCapacity - occupancy)`) divided by
(slot count times `maxCapacity`), and that ratio lies in `[0, 1]`. -/
theorem getDateAvailability_ratio (date : String) (res : List Reservation)
    (s : Settings) (h1 : openTotal s < closeTotal s)
    (h2 : 0 < s.slotIntervalMin) (h3 : 0 < s.maxCapacity) :
    ∃ l q, generateTimeSlots s = some l ∧
      getDateAvailability date res s = some q ∧
      q = (((l.map (fun slot =>
              max 0 ((s.maxCapacity : Int)
                - (getSlotOccupancy date slot.offset res : Int)))).sum : Int) : ℚ)
            / (((l.length : Int) * (s.maxCapacity : Int) : Int) : ℚ) ∧
      0 ≤ q ∧ q ≤ 1 := by
  have hopen : openTotal s = s.openHour * 60 + s.openMin := rfl
  obtain ⟨l, hl, hmap, hbound, hcomp⟩ :=
    genSlotsAux_char s.slotIntervalMin (closeTotal s) h2 (closeTotal s)
      s.openHour s.openMin (by omega)
  have hgen : generateTimeSlots s = some l := hl
  have hlen : 0 < l.length := by
    refine hcomp 0 ?_
    rw [← hopen]
    simpa using h1
  set f : TimeSlot → Int := fun slot =>
    max 0 ((s.maxCapacity : Int) - (getSlotOccupancy date slot.offset res : Int))
    with hf
  set T : Int := (l.map f).sum with hT
  set D : Int := (l.length : Int) * (s.maxCapacity : Int) with hD
  have hq : getDateAvailability date res s = some ((T : ℚ) / (D : ℚ)) := by
    unfold getDateAvailability
    rw [hgen]
    simp only [Option.map]
    congr 1
    rw [foldl_add_map_int f l 0, zero_add]
  have hT0 : 0 ≤ T := by
    refine sum_map_nonneg_int f l ?_
    intro x _
    exact le_max_left _ _
  have hTD : T ≤ D := by
    refine sum_map_le_int f (s.maxCapacity : Int) l ?_
    intro x _
    refine max_le (by positivity) ?_
    have : (0 : Int) ≤ (getSlotOccupancy date x.offset res : Int) := by positivity
    omega
  have hD0 : (0 : Int) < D := by
    rw [hD]
    have : (0 : Int) < (l.length : Int) := by exact_mod_cast hlen
    have hcap : (0 : Int) < (s.maxCapacity : Int) := by exact_mod_cast h3
    positivity
  have hDq : (0 : ℚ) < (D : ℚ) := by exact_mod_cast hD0
  refine ⟨l, (T : ℚ) / (D : ℚ), hgen, hq, rfl, ?_, ?_⟩
  · apply div_nonneg
    · exact_mod_cast hT0
    · exact le_of_lt hDq
  · rw [div_le_one hDq]
    exact_mod_cast hTD

theorem getDateAvailability_ratio_w :
    (openTotal DEFAULT_SETTINGS < closeTotal DEFAULT_SETTINGS ∧
      0 < DEFAULT_SETTINGS.slotIntervalMin ∧ 0 < DEFAULT_SETTINGS.maxCapacity) ∧
    ∃ l q, generateTimeSlots DEFAULT_SETTINGS = some l ∧
      getDateAvailability "2026-03-01" [resEndNoon] DEFAULT_SETTINGS = some q ∧
      q = (((l.map (fun slot =>
              max 0 ((DEFAULT_SETTINGS.maxCapacity : Int)
                - (getSlotOccupancy "2026-03-01" slot.offset [resEndNoon] : Int)))).sum : Int) : ℚ)
            / (((l.length : Int) * (DEFAULT_SETTINGS.maxCapacity : Int) : Int) : ℚ) ∧
      0 ≤ q ∧ q ≤ 1 :=
  ⟨⟨by decide, by decide, by decide⟩,
    getDateAvailability_ratio "2026-03-01" [resEndNoon] DEFAULT_SETTINGS
      (by decide) (by decide) (by decide)⟩
